import Mathlib

/-!
Verification of the telemetry sampling / rate-derivation engine of
`system_report.py` (tg-server-bot).

The Python functions are shallowly embedded: machine floats become `ℚ`,
kernel tick / byte counters become `ℤ`, Python dicts become association
lists built with insert-or-update semantics (`dictInsert`), and fallible
reads take `Option` inputs (`none` models an I/O failure of the
underlying `/proc` file).
-/

namespace SystemReport

/-! ## Python-dict model

A Python `dict` keeps insertion order; assigning to an existing key
updates the value in place, assigning to a fresh key appends.  `dictGet`
is `d[k]` / `k in d` combined, returning `none` when the key is absent.
-/

section Dict

variable {κ β : Type} [DecidableEq κ]

def dictInsert (k : κ) (v : β) : List (κ × β) → List (κ × β)
  | [] => [(k, v)]
  | (k', v') :: d => if k' = k then (k, v) :: d else (k', v') :: dictInsert k v d

def dictGet (k : κ) : List (κ × β) → Option β
  | [] => none
  | (k', v') :: d => if k' = k then some v' else dictGet k d

theorem dictGet_dictInsert (k q : κ) (v : β) (d : List (κ × β)) :
    dictGet q (dictInsert k v d) = if k = q then some v else dictGet q d := by
  induction d with
  | nil =>
    simp only [dictInsert, dictGet]
  | cons e d ih =>
    obtain ⟨k', v'⟩ := e
    by_cases hk : k' = k
    · subst hk
      simp only [dictInsert, if_pos rfl, dictGet]
      by_cases hq : k' = q <;> simp [hq]
    · simp only [dictInsert, if_neg hk, dictGet]
      by_cases hq : k' = q
      · subst hq
        have : ¬ k = k' := fun h => hk h.symm
        simp [this]
      · simp [hq, ih]

theorem dictGet_eq_none_iff (q : κ) (d : List (κ × β)) :
    dictGet q d = none ↔ ∀ e ∈ d, e.1 ≠ q := by
  induction d with
  | nil => simp [dictGet]
  | cons e d ih =>
    obtain ⟨k', v'⟩ := e
    by_cases hq : k' = q
    · subst hq
      simp [dictGet]
    · simp [dictGet, hq, ih]

theorem dictGet_mem_of_eq_some {q : κ} {v : β} {d : List (κ × β)}
    (h : dictGet q d = some v) : (q, v) ∈ d := by
  induction d with
  | nil => simp [dictGet] at h
  | cons e d ih =>
    obtain ⟨k', v'⟩ := e
    by_cases hq : k' = q
    · subst hq
      have hv : v' = v := by simpa [dictGet] using h
      subst hv
      exact List.mem_cons_self _ _
    · simp only [dictGet, if_neg hq] at h
      exact List.mem_cons_of_mem _ (ih h)

/-- A loop `for x in l:` that conditionally executes `d[k] = v` (with `(k, v)`
given by `g x`), threading the dict `acc`. -/
def dictFold {α : Type} (g : α → Option (κ × β)) : List α → List (κ × β) → List (κ × β)
  | [], acc => acc
  | x :: l, acc =>
    dictFold g l (match g x with
      | some kv => dictInsert kv.1 kv.2 acc
      | none => acc)

def dictBuild {α : Type} (g : α → Option (κ × β)) (l : List α) : List (κ × β) :=
  dictFold g l []

theorem dictGet_dictFold_of_forall_ne {α : Type} (g : α → Option (κ × β)) (keyOf : α → κ)
    (hg : ∀ x kv, g x = some kv → kv.1 = keyOf x)
    {l : List α} {q : κ} (h : ∀ x ∈ l, keyOf x ≠ q) (acc : List (κ × β)) :
    dictGet q (dictFold g l acc) = dictGet q acc := by
  induction l generalizing acc with
  | nil => rfl
  | cons x l ih =>
    have hx : keyOf x ≠ q := h x (List.mem_cons_self x l)
    have hrest : ∀ y ∈ l, keyOf y ≠ q := fun y hy => h y (List.mem_cons_of_mem _ hy)
    simp only [dictFold]
    rcases hgx : g x with _ | kv
    · exact ih hrest acc
    · have hkey : kv.1 = keyOf x := hg x kv hgx
      rw [ih hrest]
      rw [dictGet_dictInsert]
      have : ¬ kv.1 = q := by rw [hkey]; exact hx
      simp [this]

theorem dictGet_dictFold_of_mem {α : Type} (g : α → Option (κ × β)) (keyOf : α → κ)
    (hg : ∀ x kv, g x = some kv → kv.1 = keyOf x)
    {l : List α} {x : α} {q : κ}
    (hmem : x ∈ l) (hkey : keyOf x = q) (hnd : (l.map keyOf).Nodup) (acc : List (κ × β)) :
    dictGet q (dictFold g l acc) =
      (match g x with
        | some kv => some kv.2
        | none => dictGet q acc) := by
  induction l generalizing acc with
  | nil => exact absurd hmem (List.not_mem_nil x)
  | cons y l ih =>
    have hnd' : (l.map keyOf).Nodup := (List.nodup_cons.mp hnd).2
    have hynotin : keyOf y ∉ l.map keyOf := (List.nodup_cons.mp hnd).1
    rcases List.mem_cons.mp hmem with hxy | hxl
    · subst hxy
      have hrest : ∀ z ∈ l, keyOf z ≠ q := by
        intro z hz hzq
        exact hynotin (hkey ▸ hzq ▸ List.mem_map_of_mem keyOf hz)
      simp only [dictFold]
      rcases hgx : g x with _ | kv
      · exact dictGet_dictFold_of_forall_ne g keyOf hg hrest _
      · have hkv : kv.1 = q := hkey ▸ hg x kv hgx
        rw [dictGet_dictFold_of_forall_ne g keyOf hg hrest]
        rw [dictGet_dictInsert]
        simp [hkv]
    · have hyq : keyOf y ≠ q := by
        intro hq
        exact hynotin (hq ▸ hkey ▸ List.mem_map_of_mem keyOf hxl)
      simp only [dictFold]
      rcases hgy : g y with _ | kv
      · exact ih hxl hnd' acc
      · rw [ih hxl hnd']
        rcases hgx : g x with _ | kv'
        · have hkv : kv.1 = keyOf y := hg y kv hgy
          rw [dictGet_dictInsert]
          have : ¬ kv.1 = q := by rw [hkv]; exact hyq
          simp [this]
        · rfl

end Dict

/-! ## CPU utilization (`calculate_cpu_percent`)

`read_cpu_stats` returns a dict with keys `total` and `idle`; a fully
populated dict is modelled by `CpuTimes`, an empty (falsy) dict by `none`.
Tick counters are integers; the float arithmetic of the percent is `ℚ`.
-/

structure CpuTimes where
  total : ℤ
  idle : ℤ
deriving DecidableEq, Repr

def calculate_cpu_percent : Option CpuTimes → Option CpuTimes → ℚ
  | none, _ => 0
  | some _, none => 0
  | some prev, some current =>
    let total_diff : ℤ := current.total - prev.total
    let idle_diff : ℤ := current.idle - prev.idle
    if total_diff = 0 then 0
    else ((total_diff - idle_diff : ℤ) : ℚ) / ((total_diff : ℤ) : ℚ) * 100

/-! ## Network speed (`calculate_network_speed`) and disk I/O deltas -/

structure NetData where
  bytes_recv : ℤ
  bytes_sent : ℤ
deriving DecidableEq, Repr

structure NetSpeed where
  bytes_sent_per_sec : ℤ
  bytes_recv_per_sec : ℤ
deriving DecidableEq, Repr

/-- Loop over `current_net.items()`; an interface found in `prev_net` gets its
raw counter deltas stored (the interval is the fixed 1-second sleep). -/
def calculate_network_speed (prev_net current_net : List (String × NetData)) :
    List (String × NetSpeed) :=
  dictBuild (fun e =>
    match dictGet e.1 prev_net with
    | some p => some (e.1, ⟨e.2.bytes_sent - p.bytes_sent, e.2.bytes_recv - p.bytes_recv⟩)
    | none => none) current_net

structure DiskCounters where
  read_sectors : ℤ
  write_sectors : ℤ
deriving DecidableEq, Repr

/-- The disk I/O aggregation loop in `main`: for every device present in both
samples, accumulate `diff * 512` into `(total_read, total_write)`. -/
def disk_io_fold (prev_disk : List (String × DiskCounters)) :
    List (String × DiskCounters) → ℤ × ℤ → ℤ × ℤ
  | [], t => t
  | e :: cur, t =>
    disk_io_fold prev_disk cur
      (match dictGet e.1 prev_disk with
       | some p =>
         (t.1 + (e.2.read_sectors - p.read_sectors) * 512,
          t.2 + (e.2.write_sectors - p.write_sectors) * 512)
       | none => t)

def disk_io_totals (prev_disk current_disk : List (String × DiskCounters)) : ℤ × ℤ :=
  disk_io_fold prev_disk current_disk (0, 0)

def disk_read_contribution (prev_disk : List (String × DiskCounters))
    (e : String × DiskCounters) : ℤ :=
  match dictGet e.1 prev_disk with
  | some p => (e.2.read_sectors - p.read_sectors) * 512
  | none => 0

def disk_write_contribution (prev_disk : List (String × DiskCounters))
    (e : String × DiskCounters) : ℤ :=
  match dictGet e.1 prev_disk with
  | some p => (e.2.write_sectors - p.write_sectors) * 512
  | none => 0

/-! ## Per-process CPU percent (`calculate_process_cpu_percent`) -/

structure ProcStat where
  pid : ℕ
  name : String
  total_time : ℤ
  vsize : ℤ
  rss : ℤ
deriving DecidableEq, Repr

/-- `cpu_count` is `os.cpu_count() or 1`, passed here as a parameter.  The
result dict maps each PID of `current_processes` to its CPU percent. -/
def calculate_process_cpu_percent (prev_processes current_processes : List ProcStat)
    (cpu_time_diff_ticks : ℤ) (cpu_count : ℕ) : List (ℕ × ℚ) :=
  if cpu_time_diff_ticks ≤ 0 then
    dictBuild (fun p => some (p.pid, (0 : ℚ))) current_processes
  else
    dictBuild (fun p => some (p.pid,
      match prev_processes.find? (fun q => q.pid == p.pid) with
      | some q =>
        max 0 (((p.total_time - q.total_time : ℤ) : ℚ) /
          ((cpu_time_diff_ticks : ℤ) : ℚ) * 100 * (cpu_count : ℚ))
      | none => (0 : ℚ))) current_processes

/-! ## Alert evaluation (the threshold block in `main`) -/

structure SysMetrics where
  cpu_percent : ℚ
  load_1min : ℚ
  cpu_count : ℕ
  mem_percent : ℚ
  swap_percent : ℚ
  disk_percent : ℚ
deriving DecidableEq, Repr

/-- The five alert strings, in source order, plus the "✅ Система в норме"
marker used when no alert fired. -/
inductive Alert where
  | highCpu
  | highLoad
  | highRam
  | highSwap
  | lowDisk
  | nominal
deriving DecidableEq, Repr

/-- Index of each rule in the fixed evaluation order. -/
def Alert.ruleIdx : Alert → ℕ
  | .highCpu => 0
  | .highLoad => 1
  | .highRam => 2
  | .highSwap => 3
  | .lowDisk => 4
  | .nominal => 5

/-- The sequence of `alerts.append(...)` calls guarded by the five thresholds. -/
def check_alerts (m : SysMetrics) : List Alert :=
  (if m.cpu_percent > 85 then [Alert.highCpu] else []) ++
  (if m.load_1min > (m.cpu_count : ℚ) * 2 then [Alert.highLoad] else []) ++
  (if m.mem_percent > 90 then [Alert.highRam] else []) ++
  (if m.swap_percent > 80 then [Alert.highSwap] else []) ++
  (if m.disk_percent > 90 then [Alert.lowDisk] else [])

/-- Models `alert_text = "\n".join(alerts) if alerts else "✅ Система в норме"`
at alert granularity. -/
def alert_status (m : SysMetrics) : List Alert :=
  if check_alerts m = [] then [Alert.nominal] else check_alerts m

/-! ## Human-readable byte formatting (`bytes_to_human_readable`)

Only the numeric magnitude and chosen unit are modelled; the final
one-decimal string rendering is presentation and not part of the model.
-/

def b2hGo : ℚ → List String → ℚ × String
  | n, [] => (n, "PiB")
  | n, u :: us => if n < 1024 then (n, u) else b2hGo (n / 1024) us

def bytes_to_human_readable (num_bytes : ℚ) : ℚ × String :=
  b2hGo num_bytes ["B", "KiB", "MiB", "GiB", "TiB"]

def unitIdx : String → ℕ
  | "B" => 0
  | "KiB" => 1
  | "MiB" => 2
  | "GiB" => 3
  | "TiB" => 4
  | _ => 5

/-! ## Memory usage computation (the `meminfo` block in `main`) -/

/-- `mem_used = mem_total - free - buffers - cached` with `.get(key, 0)`
defaults already applied to the four inputs. -/
def mem_used (total free buffers cached : ℤ) : ℤ :=
  total - free - buffers - cached

/-- `mem_percent = (mem_used / mem_total) * 100 if mem_total > 0 else 0`. -/
def mem_percent (used total : ℤ) : ℚ :=
  if total > 0 then ((used : ℤ) : ℚ) / ((total : ℤ) : ℚ) * 100 else 0

/-! ## Counter readers (`read_cpu_stats`, `read_network_stats`,
`read_processes_with_stats`)

File contents are modelled pre-tokenised: a line is its split fields, and
each numeric field carries the result of Python `int(...)` on it — `some n`
when the text parses, `none` when `int` would raise `ValueError`.  A whole
file is `Option (List _)`, `none` meaning the `open` itself failed.
-/

/-- One line of `/host/proc/stat`: whether it starts with `"cpu "`, and the
`int`-parses of `parts[1:]`. -/
structure StatLine where
  isCpu : Bool
  nums : List (Option ℤ)

/-- Result dict of `read_cpu_stats`: the optional `total` and `idle` entries
(the dict can come back empty or, on a truncated cpu line, with `total`
only — the exception fires after `total` was assigned). -/
def read_cpu_stats (file : Option (List StatLine)) : Option ℤ × Option ℤ :=
  match file with
  | none => (none, none)
  | some lines =>
    match lines.find? (·.isCpu) with
    | none => (none, none)
    | some l =>
      let slice := l.nums.take 7
      if slice.all (·.isSome) then
        let total := (slice.map (fun o => o.getD 0)).sum
        match l.nums.get? 3 with
        | some (some idle) => (some total, some idle)
        | _ => (some total, none)
      else
        (none, none)

/-- One line of `/host/proc/net/dev`: `parts[0]` verbatim and the
`int`-parses of `parts[1:]`. -/
structure NetLine where
  iface : String
  nums : List (Option ℤ)

/-- Python `s.rstrip(":")`. -/
def rstripColon (s : String) : String :=
  ⟨(s.toList.reverse.dropWhile (· = ':')).reverse⟩

/-- The line loop of `read_network_stats`: short lines are skipped by the
field-count guard; a `ValueError` from `int(...)` propagates to the outer
`except`, which returns the dict accumulated so far. -/
def netGo : List NetLine → List (String × NetData) → List (String × NetData)
  | [], acc => acc
  | l :: ls, acc =>
    if l.nums.length ≥ 9 then
      match l.nums.get? 0, l.nums.get? 8 with
      | some (some recv), some (some sent) =>
        netGo ls (dictInsert (rstripColon l.iface) ⟨recv, sent⟩ acc)
      | _, _ => acc
    else
      netGo ls acc

def read_network_stats (file : Option (List NetLine)) : List (String × NetData) :=
  match file with
  | none => []
  | some lines => netGo (lines.drop 2) []

/-- One line of `/host/proc/[pid]/status`: which `Vm` key it starts with and
the `int`-parse of its second field (`none` also covers a missing second
field, i.e. `IndexError`). -/
structure StatusLine where
  startsVmSize : Bool
  startsVmRSS : Bool
  num : Option ℤ

/-- The `VmSize:`/`VmRSS:` scan with its early `break`; `none` models the
exception path that makes the caller skip the process. -/
def statusGo : List StatusLine → ℤ → ℤ → Option (ℤ × ℤ)
  | [], vsize, rss => some (vsize, rss)
  | l :: ls, vsize, rss =>
    if l.startsVmSize then
      match l.num with
      | some n =>
        let v := n * 1024
        if v > 0 ∧ rss > 0 then some (v, rss) else statusGo ls v rss
      | none => none
    else if l.startsVmRSS then
      match l.num with
      | some n =>
        let r := n * 1024
        if vsize > 0 ∧ r > 0 then some (vsize, r) else statusGo ls vsize r
      | none => none
    else if vsize > 0 ∧ rss > 0 then some (vsize, rss)
    else statusGo ls vsize rss

/-- `utime + stime` from the split `stat` line: `utime = int(parts[13]) if
len(parts) > 14 else 0`, `stime = int(parts[14]) if len(parts) > 15 else 0`;
`none` models the `ValueError` that makes the caller skip the process. -/
def statTime (fields : List (Option ℤ)) : Option ℤ :=
  let utime : Option ℤ := if fields.length > 14 then (fields.get? 13).getD none else some 0
  let stime : Option ℤ := if fields.length > 15 then (fields.get? 14).getD none else some 0
  match utime, stime with
  | some u, some s => some (u + s)
  | _, _ => none

/-- One `/host/proc` directory entry with the contents of the per-process
files behind it (`none` = the file vanished or is unreadable). -/
structure ProcDirEntry where
  dirName : String
  comm : Option String
  statFields : Option (List (Option ℤ))
  statusLines : Option (List StatusLine)

/-- The body of the per-entry loop: any caught exception (missing file,
parse error) yields `none`, i.e. `continue`. -/
def readProcEntry (e : ProcDirEntry) : Option ProcStat :=
  if e.dirName.isNat then
    match e.comm with
    | none => none
    | some nm =>
      match e.statFields with
      | none => none
      | some fields =>
        match statTime fields with
        | none => none
        | some t =>
          match e.statusLines with
          | none => none
          | some sls =>
            match statusGo sls 0 0 with
            | none => none
            | some vr => some ⟨e.dirName.toNat?.getD 0, nm, t, vr.1, vr.2⟩
  else none

def read_processes_with_stats (dir : Option (List ProcDirEntry)) : List ProcStat :=
  match dir with
  | none => []
  | some entries => entries.filterMap readProcEntry

/-! ## Docker project-name derivation (`get_docker_containers`)

`re.match(r"^([a-zA-Z0-9_-]+)_", name)` with a greedy group: the group is
the longest run of word characters that is immediately followed by a `_`
(which is itself a word character, so everything lies inside the leading
word-character run of the name). -/

def isWordChar (c : Char) : Bool :=
  (c.isAlpha || c.isDigit) || c = '_' || c = '-'

/-- Largest index of a `'_'` in the list, if any. -/
def lastUnderscoreIdx : List Char → Option ℕ
  | [] => none
  | c :: cs =>
    match lastUnderscoreIdx cs with
    | some k => some (k + 1)
    | none => if c = '_' then some 0 else none

/-- `project_match.group(1) if project_match else "default"`. -/
def derive_project_name (name : String) : String :=
  let run := name.toList.takeWhile isWordChar
  match lastUnderscoreIdx run with
  | some k => if 1 ≤ k then ⟨run.take k⟩ else "default"
  | none => "default"

/-! ## Top-5 process rankings (the `sorted(..., reverse=True)[:5]` calls)

Python's `sorted` is a stable sort; with `reverse=True` the result is
ordered by descending key and elements with equal keys keep their original
relative order.  `List.insertionSort` with the total preorder
`keyGe key a b ↔ key b ≤ key a` produces exactly that list (a stable sort
for a fixed total preorder is unique), so it is the model of
`sorted(procs, key=..., reverse=True)`. -/

structure ProcRender where
  pid : ℕ
  cpu_percent : ℚ
  memory_percent : ℚ
deriving DecidableEq, Repr

def keyGe (key : ProcRender → ℚ) (a b : ProcRender) : Prop :=
  key b ≤ key a

instance (key : ProcRender → ℚ) : DecidableRel (keyGe key) :=
  fun a b => inferInstanceAs (Decidable (key b ≤ key a))

instance (key : ProcRender → ℚ) : IsTotal ProcRender (keyGe key) :=
  ⟨fun a b => (le_total (key b) (key a)).imp id id⟩

instance (key : ProcRender → ℚ) : IsTrans ProcRender (keyGe key) :=
  ⟨fun _ _ _ h1 h2 => le_trans h2 h1⟩

def top5By (key : ProcRender → ℚ) (procs : List ProcRender) : List ProcRender :=
  (procs.insertionSort (keyGe key)).take 5

def top_procs_cpu (procs : List ProcRender) : List ProcRender :=
  top5By (fun p => p.cpu_percent) procs

def top_procs_mem (procs : List ProcRender) : List ProcRender :=
  top5By (fun p => p.memory_percent) procs

/-- Modelled from the spec's words (not from the code), for comparison: the
ranking "by descending CPU percent, ties broken by ascending PID". -/
def spec_rank_cpu (a b : ProcRender) : Prop :=
  b.cpu_percent < a.cpu_percent ∨ (a.cpu_percent = b.cpu_percent ∧ a.pid ≤ b.pid)

instance : DecidableRel spec_rank_cpu :=
  fun a b =>
    inferInstanceAs (Decidable
      (b.cpu_percent < a.cpu_percent ∨ (a.cpu_percent = b.cpu_percent ∧ a.pid ≤ b.pid)))

def spec_top_procs_cpu (procs : List ProcRender) : List ProcRender :=
  (procs.insertionSort spec_rank_cpu).take 5

theorem disk_io_fold_eq (prev_disk : List (String × DiskCounters)) :
    ∀ (cur : List (String × DiskCounters)) (t : ℤ × ℤ),
      disk_io_fold prev_disk cur t =
        (t.1 + (cur.map (disk_read_contribution prev_disk)).sum,
         t.2 + (cur.map (disk_write_contribution prev_disk)).sum) := by
  intro cur
  induction cur with
  | nil => intro t; simp [disk_io_fold]
  | cons e cur ih =>
    intro t
    simp only [disk_io_fold, List.map_cons, List.sum_cons]
    rcases hp : dictGet e.1 prev_disk with _ | p
    · rw [ih]
      simp [disk_read_contribution, disk_write_contribution, hp]
    · rw [ih]
      simp only [disk_read_contribution, disk_write_contribution, hp, Prod.mk.injEq]
      constructor <;> ring

/-! ## Claim C1 -/

/-- C1 (amended): for valid snapshot pairs (non-decreasing total and idle
counters, idle a component of total) the CPU percent equals
`(total_delta - idle_delta) / total_delta * 100` when `total_delta ≠ 0`,
is `0` when `total_delta = 0`, and lies in `[0, 100]`; the scenario
`total_delta = 1000, idle_delta = 800` gives `20`.  (The original "is 0
exactly when `total_delta == 0`" fails: the percent is also 0 whenever
`idle_delta = total_delta`, see the counterexample.) -/
theorem cpu_percent_formula_bounds :
    (∀ prev current : CpuTimes,
      prev.total ≤ current.total →
      prev.idle ≤ current.idle →
      current.idle - prev.idle ≤ current.total - prev.total →
      (current.total - prev.total ≠ 0 →
        calculate_cpu_percent (some prev) (some current) =
          (((current.total - prev.total) - (current.idle - prev.idle) : ℤ) : ℚ) /
            ((current.total - prev.total : ℤ) : ℚ) * 100) ∧
      (current.total - prev.total = 0 →
        calculate_cpu_percent (some prev) (some current) = 0) ∧
      0 ≤ calculate_cpu_percent (some prev) (some current) ∧
      calculate_cpu_percent (some prev) (some current) ≤ 100) ∧
    calculate_cpu_percent (some ⟨0, 0⟩) (some ⟨1000, 800⟩) = 20 := by
  constructor
  · intro prev current h1 h2 h3
    by_cases hz : current.total - prev.total = 0
    · have hval : calculate_cpu_percent (some prev) (some current) = 0 := by
        simp [calculate_cpu_percent, hz]
      refine ⟨fun h => absurd hz h, fun _ => hval, ?_, ?_⟩ <;> rw [hval]
      norm_num
    · have hval : calculate_cpu_percent (some prev) (some current) =
          (((current.total - prev.total) - (current.idle - prev.idle) : ℤ) : ℚ) /
            ((current.total - prev.total : ℤ) : ℚ) * 100 := by
        simp [calculate_cpu_percent, hz]
      have htd0 : (0 : ℤ) < current.total - prev.total := lt_of_le_of_ne (by omega) (Ne.symm hz)
      have ha : (0 : ℚ) < ((current.total - prev.total : ℤ) : ℚ) := by exact_mod_cast htd0
      have hb0 : (0 : ℤ) ≤ current.idle - prev.idle := by omega
      refine ⟨fun _ => hval, fun h => absurd h hz, ?_, ?_⟩
      · rw [hval]
        apply mul_nonneg _ (by norm_num : (0 : ℚ) ≤ 100)
        apply div_nonneg _ ha.le
        have : (0 : ℤ) ≤ (current.total - prev.total) - (current.idle - prev.idle) := by omega
        exact_mod_cast this
      · rw [hval]
        have hdiv : (((current.total - prev.total) - (current.idle - prev.idle) : ℤ) : ℚ) /
            ((current.total - prev.total : ℤ) : ℚ) ≤ 1 := by
          rw [div_le_one ha]
          exact_mod_cast (by omega : (current.total - prev.total) - (current.idle - prev.idle) ≤
            current.total - prev.total)
        calc (((current.total - prev.total) - (current.idle - prev.idle) : ℤ) : ℚ) /
              ((current.total - prev.total : ℤ) : ℚ) * 100
            ≤ 1 * 100 := mul_le_mul_of_nonneg_right hdiv (by norm_num)
          _ = 100 := by norm_num
  · norm_num [calculate_cpu_percent]

/-- Witness for `cpu_percent_formula_bounds` at the claim's own scenario. -/
theorem cpu_percent_formula_bounds_witness :
    0 ≤ calculate_cpu_percent (some ⟨0, 0⟩) (some ⟨1000, 800⟩) ∧
    calculate_cpu_percent (some ⟨0, 0⟩) (some ⟨1000, 800⟩) ≤ 100 :=
  ⟨(cpu_percent_formula_bounds.1 ⟨0, 0⟩ ⟨1000, 800⟩ (by norm_num) (by norm_num)
      (by norm_num)).2.2.1,
   (cpu_percent_formula_bounds.1 ⟨0, 0⟩ ⟨1000, 800⟩ (by norm_num) (by norm_num)
      (by norm_num)).2.2.2⟩

/-- Counterexample to C1 as stated: a fully idle interval (`total_delta =
idle_delta = 100`) yields `cpu_percent = 0` although `total_delta ≠ 0`, so
"is 0 exactly when `total_delta == 0`" is false. -/
theorem cpu_percent_zero_with_nonzero_delta :
    calculate_cpu_percent (some ⟨100, 100⟩) (some ⟨200, 200⟩) = 0 ∧
    (⟨200, 200⟩ : CpuTimes).total - (⟨100, 100⟩ : CpuTimes).total ≠ 0 := by
  constructor
  · norm_num [calculate_cpu_percent]
  · norm_num

/-! ## Claims C2 and C10 -/

/-- C2 (amended): for interfaces present in both snapshots the reported
speed is the raw counter delta over the 1-second interval (scale 1 for
network bytes), and the disk I/O totals are the sums over common devices of
the raw sector deltas scaled by 512 — with no flooring of negative deltas
anywhere: the regression scenario `A.sent = 5000, B.sent = 3000` yields
`-2000`, not `0` as the original claim states. -/
theorem network_disk_throughput_raw_deltas :
    (∀ (prev_net current_net : List (String × NetData)) (i : String) (c p : NetData),
      (current_net.map Prod.fst).Nodup →
      (i, c) ∈ current_net →
      dictGet i prev_net = some p →
      dictGet i (calculate_network_speed prev_net current_net) =
        some ⟨c.bytes_sent - p.bytes_sent, c.bytes_recv - p.bytes_recv⟩) ∧
    (∀ prev_disk current_disk : List (String × DiskCounters),
      disk_io_totals prev_disk current_disk =
        ((current_disk.map (disk_read_contribution prev_disk)).sum,
         (current_disk.map (disk_write_contribution prev_disk)).sum)) ∧
    dictGet "eth0" (calculate_network_speed
      [("eth0", ⟨0, 5000⟩)] [("eth0", ⟨0, 3000⟩)]) = some ⟨-2000, 0⟩ := by
  refine ⟨?_, ?_, by decide⟩
  · intro prev_net current_net i c p hnd hmem hp
    have hg : ∀ (x : String × NetData) (kv : String × NetSpeed),
        (match dictGet x.1 prev_net with
          | some q => some (x.1,
              (⟨x.2.bytes_sent - q.bytes_sent, x.2.bytes_recv - q.bytes_recv⟩ : NetSpeed))
          | none => none) = some kv → kv.1 = x.1 := by
      intro x kv h
      rcases hq : dictGet x.1 prev_net with _ | q <;> rw [hq] at h
      · exact absurd h (by simp)
      · simp only [Option.some.injEq] at h
        rw [← h]
    have := dictGet_dictFold_of_mem
      (fun e : String × NetData =>
        match dictGet e.1 prev_net with
        | some q => some (e.1,
            (⟨e.2.bytes_sent - q.bytes_sent, e.2.bytes_recv - q.bytes_recv⟩ : NetSpeed))
        | none => none)
      Prod.fst hg hmem rfl hnd []
    rw [show calculate_network_speed prev_net current_net =
      dictFold _ current_net [] from rfl]
    rw [this, hp]
  · intro prev_disk current_disk
    unfold disk_io_totals
    rw [disk_io_fold_eq]
    simp

/-- Witness for `network_disk_throughput_raw_deltas` at the spec's normal
throughput scenario (sent 1000→1500, received 2000→2600). -/
theorem network_disk_throughput_raw_deltas_witness :
    dictGet "eth0" (calculate_network_speed
      [("eth0", ⟨2000, 1000⟩)] [("eth0", ⟨2600, 1500⟩)]) = some ⟨500, 600⟩ := by
  have h := network_disk_throughput_raw_deltas.1
    [("eth0", ⟨2000, 1000⟩)] [("eth0", ⟨2600, 1500⟩)] "eth0" ⟨2600, 1500⟩ ⟨2000, 1000⟩
    (by decide) (by decide) (by decide)
  simpa using h

/-- Counterexample to C2 as stated: on the counter regression
`A.sent = 5000, B.sent = 3000` the code reports `-2000`, a negative value,
not the claimed `0`. -/
theorem network_speed_counter_regression_negative :
    dictGet "eth0" (calculate_network_speed
      [("eth0", ⟨0, 5000⟩)] [("eth0", ⟨0, 3000⟩)]) = some ⟨-2000, 0⟩ ∧
    (-2000 : ℤ) < 0 := by
  exact ⟨by decide, by decide⟩

/-- C10: the network-speed dict has an entry for an interface exactly when
the interface occurs in both the previous and the current snapshot; an
interface present in only one of them is omitted entirely. -/
theorem network_speed_common_interfaces_only
    (prev_net current_net : List (String × NetData)) (i : String)
    (hnd : (current_net.map Prod.fst).Nodup) :
    (dictGet i (calculate_network_speed prev_net current_net)).isSome ↔
      (dictGet i current_net).isSome ∧ (dictGet i prev_net).isSome := by
  have hg : ∀ (x : String × NetData) (kv : String × NetSpeed),
      (match dictGet x.1 prev_net with
        | some q => some (x.1,
            (⟨x.2.bytes_sent - q.bytes_sent, x.2.bytes_recv - q.bytes_recv⟩ : NetSpeed))
        | none => none) = some kv → kv.1 = x.1 := by
    intro x kv h
    rcases hq : dictGet x.1 prev_net with _ | q
    · rw [hq] at h
      exact absurd h (by simp)
    · rw [hq] at h
      simp only [Option.some.injEq] at h
      rw [← h]
  rcases hc : dictGet i current_net with _ | c
  · have hne : ∀ e ∈ current_net, e.1 ≠ i :=
      fun e he => (dictGet_eq_none_iff i current_net).mp hc e he
    rw [show calculate_network_speed prev_net current_net =
      dictFold _ current_net [] from rfl]
    rw [dictGet_dictFold_of_forall_ne _ Prod.fst hg hne]
    simp [dictGet]
  · have hmem : (i, c) ∈ current_net := dictGet_mem_of_eq_some hc
    rw [show calculate_network_speed prev_net current_net =
      dictFold _ current_net [] from rfl]
    rw [dictGet_dictFold_of_mem _ Prod.fst hg hmem rfl hnd]
    rcases hp : dictGet i prev_net with _ | p
    · simp [dictGet]
    · simp

/-- Witness for `network_speed_common_interfaces_only`: an interface present
only in the current snapshot has no entry in the result. -/
theorem network_speed_common_interfaces_only_witness :
    ((dictGet "eth1" (calculate_network_speed
        [("lo", ⟨1, 2⟩)] [("eth1", ⟨3, 4⟩)])).isSome ↔
      (dictGet "eth1" [("eth1", (⟨3, 4⟩ : NetData))]).isSome ∧
      (dictGet "eth1" [("lo", (⟨1, 2⟩ : NetData))]).isSome) :=
  network_speed_common_interfaces_only [("lo", ⟨1, 2⟩)] [("eth1", ⟨3, 4⟩)] "eth1" (by decide)

/-! ## Claim C3 -/

theorem find?_pid_eq_some {l : List ProcStat} {q : ProcStat} {k : ℕ}
    (hnd : (l.map ProcStat.pid).Nodup) (hq : q ∈ l) (hk : q.pid = k) :
    l.find? (fun r => r.pid == k) = some q := by
  induction l with
  | nil => cases hq
  | cons y t ih =>
    have hynotin : y.pid ∉ t.map ProcStat.pid := (List.nodup_cons.mp hnd).1
    by_cases hy : y.pid = k
    · rcases List.mem_cons.mp hq with h | h
      · subst h
        exact List.find?_cons_of_pos _ (by simp [hk])
      · exfalso
        apply hynotin
        have hmemmap : q.pid ∈ t.map ProcStat.pid := List.mem_map_of_mem ProcStat.pid h
        rwa [hk, ← hy] at hmemmap
    · rw [List.find?_cons_of_neg _ (by simp [hy])]
      rcases List.mem_cons.mp hq with h | h
      · exact absurd (h ▸ hk) hy
      · exact ih (List.nodup_cons.mp hnd).2 h

/-- C3: with a non-positive total tick delta every current process maps to
`0`; with a positive delta a PID present in both lists maps to
`(proc_delta / total_delta) * 100 * cpu_count` clamped to `≥ 0`, a PID only
in the current list maps to `0`, and a PID absent from the current list
(e.g. present only in the previous list) has no entry in the result. -/
theorem process_cpu_percent_spec
    (prev current : List ProcStat) (diff : ℤ) (cpu_count : ℕ)
    (hnd : (current.map ProcStat.pid).Nodup) :
    (diff ≤ 0 → ∀ p ∈ current,
      dictGet p.pid (calculate_process_cpu_percent prev current diff cpu_count) = some 0) ∧
    (0 < diff → (prev.map ProcStat.pid).Nodup → ∀ p ∈ current, ∀ q ∈ prev, q.pid = p.pid →
      dictGet p.pid (calculate_process_cpu_percent prev current diff cpu_count) =
        some (max 0 (((p.total_time - q.total_time : ℤ) : ℚ) /
          ((diff : ℤ) : ℚ) * 100 * (cpu_count : ℚ)))) ∧
    (0 < diff → ∀ p ∈ current, (∀ q ∈ prev, q.pid ≠ p.pid) →
      dictGet p.pid (calculate_process_cpu_percent prev current diff cpu_count) = some 0) ∧
    (∀ i : ℕ, (∀ p ∈ current, p.pid ≠ i) →
      dictGet i (calculate_process_cpu_percent prev current diff cpu_count) = none) := by
  refine ⟨?_, ?_, ?_, ?_⟩
  · intro hdiff p hp
    have hg : ∀ (x : ProcStat) (kv : ℕ × ℚ),
        (some (x.pid, (0 : ℚ)) : Option (ℕ × ℚ)) = some kv → kv.1 = ProcStat.pid x := by
      intro x kv h
      simp only [Option.some.injEq] at h
      rw [← h]
    have := dictGet_dictFold_of_mem (fun p : ProcStat => some (p.pid, (0 : ℚ)))
      ProcStat.pid hg hp rfl hnd []
    simp only [calculate_process_cpu_percent, if_pos hdiff]
    exact this
  · intro hdiff hndp p hp q hq hqp
    have hg : ∀ (x : ProcStat) (kv : ℕ × ℚ),
        (some (x.pid,
          match prev.find? (fun r => r.pid == x.pid) with
          | some r =>
            max 0 (((x.total_time - r.total_time : ℤ) : ℚ) /
              ((diff : ℤ) : ℚ) * 100 * (cpu_count : ℚ))
          | none => (0 : ℚ)) : Option (ℕ × ℚ)) = some kv → kv.1 = ProcStat.pid x := by
      intro x kv h
      simp only [Option.some.injEq] at h
      rw [← h]
    have hfold := dictGet_dictFold_of_mem
      (fun p : ProcStat => some (p.pid,
        match prev.find? (fun r => r.pid == p.pid) with
        | some r =>
          max 0 (((p.total_time - r.total_time : ℤ) : ℚ) /
            ((diff : ℤ) : ℚ) * 100 * (cpu_count : ℚ))
        | none => (0 : ℚ)))
      ProcStat.pid hg hp rfl hnd []
    simp only [calculate_process_cpu_percent, if_neg (not_le.mpr hdiff)]
    rw [find?_pid_eq_some hndp hq hqp] at hfold
    exact hfold
  · intro hdiff p hp hne
    have hfind : prev.find? (fun r => r.pid == p.pid) = none :=
      List.find?_eq_none.mpr (fun x hx => by simpa using hne x hx)
    have hg : ∀ (x : ProcStat) (kv : ℕ × ℚ),
        (some (x.pid,
          match prev.find? (fun r => r.pid == x.pid) with
          | some r =>
            max 0 (((x.total_time - r.total_time : ℤ) : ℚ) /
              ((diff : ℤ) : ℚ) * 100 * (cpu_count : ℚ))
          | none => (0 : ℚ)) : Option (ℕ × ℚ)) = some kv → kv.1 = ProcStat.pid x := by
      intro x kv h
      simp only [Option.some.injEq] at h
      rw [← h]
    have hfold := dictGet_dictFold_of_mem
      (fun p : ProcStat => some (p.pid,
        match prev.find? (fun r => r.pid == p.pid) with
        | some r =>
          max 0 (((p.total_time - r.total_time : ℤ) : ℚ) /
            ((diff : ℤ) : ℚ) * 100 * (cpu_count : ℚ))
        | none => (0 : ℚ)))
      ProcStat.pid hg hp rfl hnd []
    simp only [calculate_process_cpu_percent, if_neg (not_le.mpr hdiff)]
    rw [hfind] at hfold
    exact hfold
  · intro i hne
    by_cases hdiff : diff ≤ 0
    · have hg : ∀ (x : ProcStat) (kv : ℕ × ℚ),
          (some (x.pid, (0 : ℚ)) : Option (ℕ × ℚ)) = some kv → kv.1 = ProcStat.pid x := by
        intro x kv h
        simp only [Option.some.injEq] at h
        rw [← h]
      have hres := dictGet_dictFold_of_forall_ne
        (fun p : ProcStat => some (p.pid, (0 : ℚ))) ProcStat.pid hg hne
        ([] : List (ℕ × ℚ))
      simp only [calculate_process_cpu_percent, if_pos hdiff]
      exact hres
    · have hg : ∀ (x : ProcStat) (kv : ℕ × ℚ),
          (some (x.pid,
            match prev.find? (fun r => r.pid == x.pid) with
            | some r =>
              max 0 (((x.total_time - r.total_time : ℤ) : ℚ) /
                ((diff : ℤ) : ℚ) * 100 * (cpu_count : ℚ))
            | none => (0 : ℚ)) : Option (ℕ × ℚ)) = some kv → kv.1 = ProcStat.pid x := by
        intro x kv h
        simp only [Option.some.injEq] at h
        rw [← h]
      have hres := dictGet_dictFold_of_forall_ne
        (fun p : ProcStat => some (p.pid,
          match prev.find? (fun r => r.pid == p.pid) with
          | some r =>
            max 0 (((p.total_time - r.total_time : ℤ) : ℚ) /
              ((diff : ℤ) : ℚ) * 100 * (cpu_count : ℚ))
          | none => (0 : ℚ)))
        ProcStat.pid hg hne ([] : List (ℕ × ℚ))
      simp only [calculate_process_cpu_percent, if_neg hdiff]
      exact hres

/-- Witness for `process_cpu_percent_spec`: the spec's own scenario (ticks
100→140 while total ticks advance by 400 on a 4-core host gives 40.0), plus
a fresh PID, a vanished PID, and the non-positive-delta case. -/
theorem process_cpu_percent_spec_witness :
    dictGet 1 (calculate_process_cpu_percent
      [⟨1, "a", 100, 0, 0⟩] [⟨1, "a", 140, 0, 0⟩, ⟨2, "b", 10, 0, 0⟩] 400 4) = some 40 ∧
    dictGet 2 (calculate_process_cpu_percent
      [⟨1, "a", 100, 0, 0⟩] [⟨1, "a", 140, 0, 0⟩, ⟨2, "b", 10, 0, 0⟩] 400 4) = some 0 ∧
    dictGet 3 (calculate_process_cpu_percent
      [⟨1, "a", 100, 0, 0⟩] [⟨1, "a", 140, 0, 0⟩, ⟨2, "b", 10, 0, 0⟩] 400 4) = none ∧
    dictGet 1 (calculate_process_cpu_percent
      [⟨1, "a", 100, 0, 0⟩] [⟨1, "a", 140, 0, 0⟩] 0 4) = some 0 := by
  have h := process_cpu_percent_spec
    [⟨1, "a", 100, 0, 0⟩] [⟨1, "a", 140, 0, 0⟩, ⟨2, "b", 10, 0, 0⟩] 400 4 (by decide)
  have h0 := process_cpu_percent_spec
    [⟨1, "a", 100, 0, 0⟩] [⟨1, "a", 140, 0, 0⟩] 0 4 (by decide)
  refine ⟨?_, ?_, ?_, ?_⟩
  · have hv := h.2.1 (by norm_num) (by decide) ⟨1, "a", 140, 0, 0⟩ (by decide)
      ⟨1, "a", 100, 0, 0⟩ (by decide) rfl
    rw [hv]
    norm_num
  · have hv := h.2.2.1 (by norm_num) ⟨2, "b", 10, 0, 0⟩ (by decide) (by decide)
    exact hv
  · exact h.2.2.2 3 (by decide)
  · exact h0.1 (by norm_num) ⟨1, "a", 140, 0, 0⟩ (by decide)

/-! ## Claim C4 -/

/-- C4: the alert evaluation applies the five independent threshold rules
(CPU > 85, 1-minute load > 2 × core count, memory > 90, swap > 80,
disk > 90) — each fires exactly when its condition holds, the emitted list
is ordered by the fixed rule order, the result is never empty, and it is
the single nominal marker exactly when no rule fired; disk = 95 with all
other metrics nominal yields exactly the low-disk alert. -/
theorem alert_rules_spec :
    (∀ m : SysMetrics,
      (Alert.highCpu ∈ alert_status m ↔ m.cpu_percent > 85) ∧
      (Alert.highLoad ∈ alert_status m ↔ m.load_1min > (m.cpu_count : ℚ) * 2) ∧
      (Alert.highRam ∈ alert_status m ↔ m.mem_percent > 90) ∧
      (Alert.highSwap ∈ alert_status m ↔ m.swap_percent > 80) ∧
      (Alert.lowDisk ∈ alert_status m ↔ m.disk_percent > 90) ∧
      (alert_status m = [Alert.nominal] ↔ check_alerts m = []) ∧
      alert_status m ≠ [] ∧
      (alert_status m).Pairwise (fun a b => a.ruleIdx < b.ruleIdx)) ∧
    alert_status ⟨20, 1, 4, 50, 10, 95⟩ = [Alert.lowDisk] := by
  constructor
  · intro m
    unfold alert_status check_alerts
    split_ifs <;> simp_all [Alert.ruleIdx]
  · norm_num [alert_status, check_alerts]

/-- Witness for `alert_rules_spec`: with CPU at 90 and disk at 95 both the
high-CPU rule and the low-disk rule fire and the nominal marker is absent. -/
theorem alert_rules_spec_witness :
    Alert.highCpu ∈ alert_status ⟨90, 1, 4, 50, 10, 95⟩ ∧
    Alert.lowDisk ∈ alert_status ⟨90, 1, 4, 50, 10, 95⟩ ∧
    Alert.nominal ∉ alert_status ⟨90, 1, 4, 50, 10, 95⟩ :=
  ⟨(alert_rules_spec.1 ⟨90, 1, 4, 50, 10, 95⟩).1.mpr (by norm_num),
   ((alert_rules_spec.1 ⟨90, 1, 4, 50, 10, 95⟩).2.2.2.2.1).mpr (by norm_num),
   by norm_num [alert_status, check_alerts]; decide⟩

/-! ## Claim C5 -/

/-- C5: for every non-negative byte count the formatter returns one of the
six units; the magnitude is the input divided by `1024 ^ unit-index`; a
non-terminal unit is only printed with magnitude `< 1024`; and the chosen
unit is the largest one reached by the repeated division, i.e. for every
smaller unit the scaled value would still be `≥ 1024`. -/
theorem bytes_to_human_readable_spec (n : ℚ) (_hn : 0 ≤ n) :
    ((bytes_to_human_readable n).2 ∈ (["B", "KiB", "MiB", "GiB", "TiB", "PiB"] : List String)) ∧
    (bytes_to_human_readable n).1 = n / 1024 ^ unitIdx (bytes_to_human_readable n).2 ∧
    ((bytes_to_human_readable n).2 ≠ "PiB" → (bytes_to_human_readable n).1 < 1024) ∧
    (∀ j : ℕ, j < unitIdx (bytes_to_human_readable n).2 → ¬ n / 1024 ^ j < 1024) := by
  have p1 : n / 1024 = n / 1024 ^ 1 := by norm_num
  have p2 : n / 1024 / 1024 = n / 1024 ^ 2 := by
    rw [div_div]
    norm_num
  have p3 : n / 1024 / 1024 / 1024 = n / 1024 ^ 3 := by
    rw [div_div, div_div]
    norm_num
  have p4 : n / 1024 / 1024 / 1024 / 1024 = n / 1024 ^ 4 := by
    rw [div_div, div_div, div_div]
    norm_num
  have p5 : n / 1024 / 1024 / 1024 / 1024 / 1024 = n / 1024 ^ 5 := by
    rw [div_div, div_div, div_div, div_div]
    norm_num
  by_cases h0 : n < 1024
  · have hv : bytes_to_human_readable n = (n, "B") := by
      simp [bytes_to_human_readable, b2hGo, h0]
    rw [hv]
    refine ⟨by simp, by simp [unitIdx], fun _ => h0, ?_⟩
    intro j hj
    simp [unitIdx] at hj
  · by_cases h1 : n / 1024 < 1024
    · have hv : bytes_to_human_readable n = (n / 1024, "KiB") := by
        simp [bytes_to_human_readable, b2hGo, h0, h1]
      rw [hv]
      refine ⟨by simp, by simp [unitIdx, p1], fun _ => h1, ?_⟩
      intro j hj
      simp only [unitIdx] at hj
      interval_cases j
      simpa using h0
    · by_cases h2 : n / 1024 / 1024 < 1024
      · have hv : bytes_to_human_readable n = (n / 1024 / 1024, "MiB") := by
          simp [bytes_to_human_readable, b2hGo, h0, h1, h2]
        rw [hv]
        refine ⟨by simp, by simp [unitIdx, p2], fun _ => h2, ?_⟩
        intro j hj
        simp only [unitIdx] at hj
        interval_cases j
        · simpa using h0
        · rw [← p1]
          exact h1
      · by_cases h3 : n / 1024 / 1024 / 1024 < 1024
        · have hv : bytes_to_human_readable n = (n / 1024 / 1024 / 1024, "GiB") := by
            simp [bytes_to_human_readable, b2hGo, h0, h1, h2, h3]
          rw [hv]
          refine ⟨by simp, by simp [unitIdx, p3], fun _ => h3, ?_⟩
          intro j hj
          simp only [unitIdx] at hj
          interval_cases j
          · simpa using h0
          · rw [← p1]
            exact h1
          · rw [← p2]
            exact h2
        · by_cases h4 : n / 1024 / 1024 / 1024 / 1024 < 1024
          · have hv : bytes_to_human_readable n =
                (n / 1024 / 1024 / 1024 / 1024, "TiB") := by
              simp [bytes_to_human_readable, b2hGo, h0, h1, h2, h3, h4]
            rw [hv]
            refine ⟨by simp, by simp [unitIdx, p4], fun _ => h4, ?_⟩
            intro j hj
            simp only [unitIdx] at hj
            interval_cases j
            · simpa using h0
            · rw [← p1]
              exact h1
            · rw [← p2]
              exact h2
            · rw [← p3]
              exact h3
          · have hv : bytes_to_human_readable n =
                (n / 1024 / 1024 / 1024 / 1024 / 1024, "PiB") := by
              simp [bytes_to_human_readable, b2hGo, h0, h1, h2, h3, h4]
            rw [hv]
            refine ⟨by simp, by rw [show unitIdx "PiB" = 5 from rfl]; exact p5.symm ▸ rfl,
              fun h => absurd rfl h, ?_⟩
            intro j hj
            rw [show unitIdx "PiB" = 5 from rfl] at hj
            interval_cases j
            · simpa using h0
            · rw [← p1]
              exact h1
            · rw [← p2]
              exact h2
            · rw [← p3]
              exact h3
            · rw [← p4]
              exact h4

/-- Witness for `bytes_to_human_readable_spec` at five million bytes
(which lands in the MiB range). -/
theorem bytes_to_human_readable_spec_witness :
    ((bytes_to_human_readable 5000000).2 ∈
      (["B", "KiB", "MiB", "GiB", "TiB", "PiB"] : List String)) ∧
    (bytes_to_human_readable 5000000).1 =
      5000000 / 1024 ^ unitIdx (bytes_to_human_readable 5000000).2 ∧
    ((bytes_to_human_readable 5000000).2 ≠ "PiB" →
      (bytes_to_human_readable 5000000).1 < 1024) ∧
    (∀ j : ℕ, j < unitIdx (bytes_to_human_readable 5000000).2 →
      ¬ (5000000 : ℚ) / 1024 ^ j < 1024) :=
  bytes_to_human_readable_spec 5000000 (by norm_num)

/-! ## Claim C6 -/

/-- C6: memory used is `total - free - buffers - cached` and memory percent
is `used / total * 100` for positive totals and `0` when the total is `0`;
the spec's scenario gives used `5_000_000_000` and percent `62.5`. -/
theorem memory_used_percent_spec :
    (∀ total free buffers cached : ℤ, 0 < total →
      mem_percent (mem_used total free buffers cached) total =
        ((total - free - buffers - cached : ℤ) : ℚ) / ((total : ℤ) : ℚ) * 100) ∧
    (∀ used : ℤ, mem_percent used 0 = 0) ∧
    mem_used 8000000000 2000000000 500000000 500000000 = 5000000000 ∧
    mem_percent 5000000000 8000000000 = 125 / 2 := by
  refine ⟨?_, ?_, by norm_num [mem_used], by norm_num [mem_percent]⟩
  · intro t f b c ht
    simp [mem_percent, mem_used, ht]
  · intro u
    simp [mem_percent]

/-- Witness for `memory_used_percent_spec` at the claim's scenario. -/
theorem memory_used_percent_spec_witness :
    mem_percent (mem_used 8000000000 2000000000 500000000 500000000) 8000000000 =
      ((8000000000 - 2000000000 - 500000000 - 500000000 : ℤ) : ℚ) /
        ((8000000000 : ℤ) : ℚ) * 100 :=
  memory_used_percent_spec.1 8000000000 2000000000 500000000 500000000 (by norm_num)

/-! ## Claim C7 -/

/-- C7 (amended): the embedded counter readers are total functions; an I/O
failure of the underlying file yields the designated absent value (empty
dict / empty list); a truncated record (too few fields) is skipped; a
process whose files vanished between enumeration and the detail reads is
silently dropped while every other entry is kept; but a record whose
numeric field does not parse aborts the remaining records of that read and
the partially accumulated dict is returned (it is not individually
skipped). -/
theorem counter_readers_error_handling :
    read_cpu_stats none = (none, none) ∧
    read_network_stats none = [] ∧
    read_processes_with_stats none = [] ∧
    (∀ (l : NetLine) (ls : List NetLine) (acc : List (String × NetData)),
      l.nums.length < 9 → netGo (l :: ls) acc = netGo ls acc) ∧
    (∀ (l : NetLine) (ls : List NetLine) (acc : List (String × NetData)),
      9 ≤ l.nums.length → l.nums.get? 0 = some none → netGo (l :: ls) acc = acc) ∧
    (∀ (es₁ es₂ : List ProcDirEntry) (e : ProcDirEntry), e.comm = none →
      read_processes_with_stats (some (es₁ ++ e :: es₂)) =
        read_processes_with_stats (some (es₁ ++ es₂))) := by
  refine ⟨rfl, rfl, rfl, ?_, ?_, ?_⟩
  · intro l ls acc h
    simp only [netGo]
    rw [if_neg (by omega)]
  · intro l ls acc h9 h0
    rw [List.get?_eq_getElem?] at h0
    rcases h8 : l.nums[8]? with _ | o
    · simp [netGo, if_pos h9, h0, h8]
    · rcases o with _ | s
      · simp [netGo, if_pos h9, h0, h8]
      · simp [netGo, if_pos h9, h0, h8]
  · intro es₁ es₂ e he
    have hnone : readProcEntry e = none := by
      unfold readProcEntry
      split
      · rw [he]
      · rfl
    simp [read_processes_with_stats, List.filterMap_append, List.filterMap_cons, hnone]

/-- Witness for `counter_readers_error_handling`: a short line is skipped, a
line with an unparsable counter returns the accumulated dict, and an entry
whose `comm` file vanished is dropped. -/
theorem counter_readers_error_handling_witness :
    netGo [⟨"lo:", [some 1]⟩] [] = netGo [] [] ∧
    netGo [⟨"bad:", [none, some 0, some 0, some 0, some 0, some 0, some 0, some 0, some 0]⟩,
        ⟨"eth1:", [some 300, some 0, some 0, some 0, some 0, some 0, some 0, some 0, some 400]⟩]
      [("eth0", ⟨100, 200⟩)] = [("eth0", ⟨100, 200⟩)] ∧
    read_processes_with_stats (some ([] ++ ⟨"7", none, none, none⟩ :: [])) =
      read_processes_with_stats (some ([] ++ [])) :=
  ⟨counter_readers_error_handling.2.2.2.1 ⟨"lo:", [some 1]⟩ [] [] (by decide),
   counter_readers_error_handling.2.2.2.2.1
     ⟨"bad:", [none, some 0, some 0, some 0, some 0, some 0, some 0, some 0, some 0]⟩
     [⟨"eth1:", [some 300, some 0, some 0, some 0, some 0, some 0, some 0, some 0, some 400]⟩]
     [("eth0", ⟨100, 200⟩)] (by decide) (by decide),
   counter_readers_error_handling.2.2.2.2.2 [] [] ⟨"7", none, none, none⟩ rfl⟩

/-- Counterexample to C7 as stated: in a `net/dev` file whose fourth line
has an unparsable byte counter, the well-formed `eth1` line after it is
lost — the malformed record is not "skipped": it aborts the read, which
returns only the entries accumulated before it (and not the absent
value either). -/
theorem network_read_malformed_aborts :
    read_network_stats (some
      [⟨"h", []⟩, ⟨"h", []⟩,
       ⟨"eth0:", [some 100, some 0, some 0, some 0, some 0, some 0, some 0, some 0, some 200]⟩,
       ⟨"bad:", [none, some 0, some 0, some 0, some 0, some 0, some 0, some 0, some 0]⟩,
       ⟨"eth1:", [some 300, some 0, some 0, some 0, some 0, some 0, some 0, some 0, some 400]⟩]) =
      [("eth0", ⟨100, 200⟩)] ∧
    dictGet "eth1" (read_network_stats (some
      [⟨"h", []⟩, ⟨"h", []⟩,
       ⟨"eth0:", [some 100, some 0, some 0, some 0, some 0, some 0, some 0, some 0, some 200]⟩,
       ⟨"bad:", [none, some 0, some 0, some 0, some 0, some 0, some 0, some 0, some 0]⟩,
       ⟨"eth1:", [some 300, some 0, some 0, some 0, some 0, some 0, some 0, some 0, some 400]⟩]))
      = none := by
  exact ⟨by decide, by decide⟩

/-! ## Claim C8 -/

theorem lastUnderscoreIdx_none : ∀ (cs : List Char),
    lastUnderscoreIdx cs = none → '_' ∉ cs := by
  intro cs
  induction cs with
  | nil => intro _ h; cases h
  | cons c t ih =>
    intro h
    rcases h' : lastUnderscoreIdx t with _ | k
    · rw [lastUnderscoreIdx, h'] at h
      by_cases hc : c = '_'
      · rw [if_pos hc] at h
        cases h
      · intro hmem
        rcases List.mem_cons.mp hmem with h1 | h1
        · exact hc h1.symm
        · exact ih h' h1
    · rw [lastUnderscoreIdx, h'] at h
      cases h

theorem lastUnderscoreIdx_spec : ∀ (cs : List Char) (k : ℕ),
    lastUnderscoreIdx cs = some k →
    cs.get? k = some '_' ∧ ∀ j, cs.get? j = some '_' → j ≤ k := by
  intro cs
  induction cs with
  | nil => intro k h; cases h
  | cons c t ih =>
    intro k h
    rcases h' : lastUnderscoreIdx t with _ | k'
    · rw [lastUnderscoreIdx, h'] at h
      by_cases hc : c = '_'
      · rw [if_pos hc] at h
        have hk : k = 0 := (Option.some.inj h).symm
        subst hk
        refine ⟨by simp [hc], ?_⟩
        intro j hj
        match j with
        | 0 => exact le_refl 0
        | j + 1 =>
          exfalso
          exact lastUnderscoreIdx_none t h' (List.get?_mem hj)
      · rw [if_neg hc] at h
        cases h
    · rw [lastUnderscoreIdx, h'] at h
      have hk : k = k' + 1 := (Option.some.inj h).symm
      subst hk
      obtain ⟨hget, hmax⟩ := ih k' h'
      refine ⟨hget, ?_⟩
      intro j hj
      match j with
      | 0 => exact Nat.zero_le _
      | j + 1 => exact Nat.succ_le_succ (hmax j hj)

/-- C8 (amended): the derived project name is the prefix of the leading
word-character run (`[a-zA-Z0-9_-]`) of the container name that ends just
before the run's **last** underscore at a position `≥ 1` — the greedy group
of `re.match(r"^([a-zA-Z0-9_-]+)_", name)` — not the token before the first
underscore; when no underscore occurs at a position `≥ 1` of that run the
fixed label `"default"` is used. -/
theorem derive_project_name_eq (name : String) :
    derive_project_name name =
      match lastUnderscoreIdx (name.toList.takeWhile isWordChar) with
      | some k =>
        if 1 ≤ k then (⟨(name.toList.takeWhile isWordChar).take k⟩ : String) else "default"
      | none => "default" := rfl

theorem derive_project_name_spec (name : String) :
    ((∀ k, 1 ≤ k → (name.toList.takeWhile isWordChar).get? k ≠ some '_') →
      derive_project_name name = "default") ∧
    (∀ k, 1 ≤ k → (name.toList.takeWhile isWordChar).get? k = some '_' →
      (∀ j, (name.toList.takeWhile isWordChar).get? j = some '_' → j ≤ k) →
      derive_project_name name = ⟨(name.toList.takeWhile isWordChar).take k⟩) := by
  constructor
  · intro h
    rw [derive_project_name_eq]
    rcases hl : lastUnderscoreIdx (name.toList.takeWhile isWordChar) with _ | k
    · rfl
    · have hs := lastUnderscoreIdx_spec _ k hl
      by_cases h1 : 1 ≤ k
      · exact absurd hs.1 (h k h1)
      · simp [h1]
  · intro k h1 hk hmax
    rw [derive_project_name_eq]
    rcases hl : lastUnderscoreIdx (name.toList.takeWhile isWordChar) with _ | k'
    · exact absurd (List.get?_mem hk) (lastUnderscoreIdx_none _ hl)
    · have hs := lastUnderscoreIdx_spec _ k' hl
      have hkk : k = k' := le_antisymm (hs.2 k hk) (hmax k' hs.1)
      subst hkk
      simp [h1]

/-- Witness for `derive_project_name_spec`: the container name
`web_app_1` (underscores at indices 3 and 7) yields `web_app`. -/
theorem derive_project_name_spec_witness :
    derive_project_name "web_app_1" = "web_app" := by
  have h := (derive_project_name_spec "web_app_1").2 7 (by norm_num) (by decide)
  have hmax : ∀ j, ("web_app_1".toList.takeWhile isWordChar).get? j = some '_' → j ≤ 7 := by
    intro j hj
    by_contra hgt
    have hlen : j < ("web_app_1".toList.takeWhile isWordChar).length := by
      by_contra hge
      rw [List.get?_eq_none.mpr (le_of_not_lt hge)] at hj
      exact absurd hj (by simp)
    have hlen9 : ("web_app_1".toList.takeWhile isWordChar).length = 9 := by decide
    have hj8 : j = 8 := by omega
    subst hj8
    exact absurd hj (by decide)
  exact (h hmax).trans (by decide)

/-- Counterexample to C8 as stated: for the container name `a_b_c` the code
derives `a_b` (prefix before the **last** underscore), not the leading
token `a` before the first underscore. -/
theorem derive_project_name_not_first_token :
    derive_project_name "a_b_c" = "a_b" ∧ derive_project_name "a_b_c" ≠ "a" := by
  exact ⟨by decide, by decide⟩

/-! ## Claim C9 -/

/-- C9 (amended): each ranking is the first five entries of the list sorted
by descending key (CPU percent resp. memory percent): the selection is
sorted, its members come from the input, it has `min 5 n` entries, every
selected entry's key dominates every unselected one's, and — in place of
the claimed ascending-PID tie-break — ties keep their original snapshot
order: whenever `a` precedes `b` in the input with `key b ≤ key a`
(in particular on equal keys), `a` still precedes `b` in the sorted list
(Python's `sorted` is stable and `reverse=True` does not reorder ties). -/
theorem top5_rankings_spec (procs : List ProcRender) :
    List.Sorted (keyGe fun p => p.cpu_percent) (top_procs_cpu procs) ∧
    List.Sorted (keyGe fun p => p.memory_percent) (top_procs_mem procs) ∧
    (top_procs_cpu procs).length = min 5 procs.length ∧
    (∀ a ∈ top_procs_cpu procs, a ∈ procs) ∧
    (∀ a ∈ top_procs_cpu procs,
      ∀ b ∈ (procs.insertionSort (keyGe fun p => p.cpu_percent)).drop 5,
        b.cpu_percent ≤ a.cpu_percent) ∧
    (∀ a b : ProcRender, b.cpu_percent ≤ a.cpu_percent → List.Sublist [a, b] procs →
      List.Sublist [a, b] (procs.insertionSort (keyGe fun p => p.cpu_percent))) ∧
    (∀ a b : ProcRender, b.memory_percent ≤ a.memory_percent → List.Sublist [a, b] procs →
      List.Sublist [a, b] (procs.insertionSort (keyGe fun p => p.memory_percent))) := by
  refine ⟨?_, ?_, ?_, ?_, ?_, ?_, ?_⟩
  · exact List.Pairwise.sublist (List.take_sublist 5 _)
      (List.sorted_insertionSort (keyGe fun p => p.cpu_percent) procs)
  · exact List.Pairwise.sublist (List.take_sublist 5 _)
      (List.sorted_insertionSort (keyGe fun p => p.memory_percent) procs)
  · simp [top_procs_cpu, top5By, List.length_insertionSort]
  · intro a ha
    exact (List.mem_insertionSort (keyGe fun p => p.cpu_percent)).mp
      (List.mem_of_mem_take ha)
  · intro a ha b hb
    have hsorted := List.sorted_insertionSort (keyGe fun p => p.cpu_percent) procs
    have hsplit : (procs.insertionSort (keyGe fun p => p.cpu_percent)).take 5 ++
        (procs.insertionSort (keyGe fun p => p.cpu_percent)).drop 5 =
        procs.insertionSort (keyGe fun p => p.cpu_percent) :=
      List.take_append_drop 5 _
    have hpair : ((procs.insertionSort (keyGe fun p => p.cpu_percent)).take 5 ++
        (procs.insertionSort (keyGe fun p => p.cpu_percent)).drop 5).Pairwise
          (keyGe fun p => p.cpu_percent) := by
      rw [hsplit]
      exact hsorted
    exact (List.pairwise_append.mp hpair).2.2 a ha b hb
  · intro a b hab hsub
    exact List.pair_sublist_insertionSort hab hsub
  · intro a b hab hsub
    exact List.pair_sublist_insertionSort hab hsub

/-- Witness for `top5_rankings_spec`: two processes tied at CPU 50 keep
their snapshot order in the sorted list. -/
theorem top5_rankings_spec_witness :
    List.Sublist [⟨9, 50, 1⟩, ⟨3, 50, 2⟩]
      ([⟨9, 50, 1⟩, (⟨3, 50, 2⟩ : ProcRender)].insertionSort
        (keyGe fun p => p.cpu_percent)) :=
  (top5_rankings_spec [⟨9, 50, 1⟩, ⟨3, 50, 2⟩]).2.2.2.2.2.1 ⟨9, 50, 1⟩ ⟨3, 50, 2⟩
    (by norm_num) (List.Sublist.refl _)

/-- Counterexample to C9 as stated: two processes with equal CPU percent and
PIDs 9 and 3, listed in that snapshot order, are ranked `[PID 9, PID 3]`
by the code (stable sort) while the claimed ascending-PID tie-break would
rank `[PID 3, PID 9]`. -/
theorem top5_ties_not_by_pid :
    top_procs_cpu [⟨9, 50, 0⟩, ⟨3, 50, 0⟩] = [⟨9, 50, 0⟩, ⟨3, 50, 0⟩] ∧
    spec_top_procs_cpu [⟨9, 50, 0⟩, ⟨3, 50, 0⟩] = [⟨3, 50, 0⟩, ⟨9, 50, 0⟩] ∧
    top_procs_cpu [⟨9, 50, 0⟩, ⟨3, 50, 0⟩] ≠ spec_top_procs_cpu [⟨9, 50, 0⟩, ⟨3, 50, 0⟩] := by
  exact ⟨by decide, by decide, by decide⟩

end SystemReport
